import Mathlib

/-!
Verification of the polls application (`my_website/polls`): data model
(`Question`, `Choice`), the time-window predicate `was_published_recently`,
the listing query of `IndexView.get_queryset`, the `DetailView` lookup, and
the `vote` view, shallowly embedded from `models.py` and `views.py`.

Timestamps are modelled as `Int` seconds; `datetime.timedelta(days=1)` is
86400 seconds.  The database is a pair of lists of records; primary keys are
`Nat`.  The submitted form field `request.POST['choice']` is an
`Option Nat`: `none` models an absent field (the `KeyError` branch).
-/

namespace Polls

/-- `class Question(models.Model)` from `models.py`: a primary key,
`question_text = models.CharField(max_length=200)` and
`pub_date = models.DateTimeField('date published')`. -/
structure Question where
  id : Nat
  question_text : String
  pub_date : Int
  deriving Repr, DecidableEq

/-- `class Choice(models.Model)` from `models.py`: a primary key,
`question = models.ForeignKey(Question, ...)` (stored as the owning
question's primary key), `choice_text` and
`votes = models.IntegerField(default=0)`. -/
structure Choice where
  id : Nat
  question : Nat
  choice_text : String
  votes : Int
  deriving Repr, DecidableEq

/-- The database state: the stored `Question` and `Choice` rows. -/
structure DB where
  questions : List Question
  choices : List Choice
  deriving Repr, DecidableEq

/-- `datetime.timedelta(days=1)` in seconds. -/
def oneDay : Int := 86400

/-- `Question.was_published_recently` from `models.py`:
`now - datetime.timedelta(days=1) <= self.pub_date <= now`. -/
def was_published_recently (q : Question) (now : Int) : Bool :=
  decide (now - oneDay ≤ q.pub_date) && decide (q.pub_date ≤ now)

/-- `Question.objects.get(pk=...)` / `get_object_or_404(Question, pk=...)`:
the stored `Question` with the given primary key, if any. -/
def getQuestion (db : DB) (qid : Nat) : Option Question :=
  db.questions.find? (fun q => q.id == qid)

/-- `question.choice_set.get(pk=...)` from the `vote` view: the stored
`Choice` with the given primary key belonging to the given question. -/
def getChoice (db : DB) (qid : Nat) (cid : Nat) : Option Choice :=
  db.choices.find? (fun c => c.id == cid && c.question == qid)

/-- Descending comparison on `pub_date`, i.e. `order_by('-pub_date')`. -/
def byRecency (a b : Question) : Bool :=
  decide (b.pub_date ≤ a.pub_date)

/-- `IndexView.get_queryset` from `views.py`:
`Question.objects.filter(pub_date__lte=timezone.now()).order_by('-pub_date')[:5]`.
`List.mergeSort` is stable, matching the database's stable ordering. -/
def get_queryset (db : DB) (now : Int) : List Question :=
  ((db.questions.filter (fun q => decide (q.pub_date ≤ now))).mergeSort
    byRecency).take 5

/-- `DetailView` (and `ResultsView`): `generic.DetailView` with
`model = Question` fetches the record by primary key, raising `Http404`
(here: `none`) when no record has that key.  No other validation. -/
def detailLookup (db : DB) (qid : Nat) : Option Question :=
  getQuestion db qid

/-- The observable outcome of the `vote` view: `Http404` from
`get_object_or_404`, the re-rendered detail page with the
`"You didn't select a choice."` error message, or the
`HttpResponseRedirect(reverse('polls:results', args=(question_id,)))`. -/
inductive VoteOutcome where
  | notFound : VoteOutcome
  | noSelection (qid : Nat) : VoteOutcome
  | redirectResults (qid : Nat) : VoteOutcome
  deriving Repr, DecidableEq

/-- `selected_choice.save()`: write the incremented row back by primary
key. -/
def saveIncrement (choices : List Choice) (cid : Nat) : List Choice :=
  choices.map (fun c => if c.id == cid then { c with votes := c.votes + 1 } else c)

/-- The `vote` view from `views.py`: look the `Question` up (404 when
absent), read `request.POST['choice']` and look the owned `Choice` up
(`KeyError` / `Choice.DoesNotExist` re-render the detail page with an error
and change nothing), otherwise `selected_choice.votes += 1`,
`selected_choice.save()` and redirect to the results view. -/
def vote (db : DB) (qid : Nat) (choiceParam : Option Nat) : DB × VoteOutcome :=
  match getQuestion db qid with
  | none => (db, .notFound)
  | some _ =>
    match choiceParam with
    | none => (db, .noSelection qid)
    | some cid =>
      match getChoice db qid cid with
      | none => (db, .noSelection qid)
      | some _ =>
        ({ db with choices := saveIncrement db.choices cid }, .redirectResults qid)

/-! Concrete fixtures used by the witness theorems. -/

/-- A stored question published at time 0. -/
def qW : Question := ⟨1, "q", 0⟩

/-- A stored choice of `qW` with no votes yet. -/
def cW : Choice := ⟨11, 1, "c", 0⟩

/-- A sibling choice of `qW` with three votes. -/
def cW2 : Choice := ⟨12, 1, "d", 3⟩

/-- A database with one question and two choices. -/
def dbW : DB := ⟨[qW], [cW, cW2]⟩

/-- A question whose `pub_date` lies in the future of time 0. -/
def qF : Question := ⟨2, "f", 1000000⟩

/-- A future-dated choice fixture. -/
def cF : Choice := ⟨21, 2, "e", 0⟩

/-- A database holding only the future-dated question and its choice. -/
def dbF : DB := ⟨[qF], [cF]⟩

/-- A database holding a choice whose owning question is absent. -/
def dbOrphan : DB := ⟨[], [⟨31, 7, "g", 0⟩]⟩

/-- A listing fixture: a question from thirty days before time 0. -/
def qOld : Question := ⟨41, "old", -2592000⟩

/-- A listing fixture: a question from five days before time 0. -/
def qNew : Question := ⟨42, "new", -432000⟩

/-- A listing fixture database: two past questions and a future one. -/
def dbL : DB := ⟨[qOld, qNew, qF], []⟩

/-! ### Helper lemmas -/

theorem byRecency_trans (a b c : Question) (hab : byRecency a b = true)
    (hbc : byRecency b c = true) : byRecency a c = true := by
  simp only [byRecency, decide_eq_true_eq] at *
  exact le_trans hbc hab

theorem byRecency_total (a b : Question) :
    (byRecency a b || byRecency b a) = true := by
  simp only [byRecency, Bool.or_eq_true, decide_eq_true_eq]
  exact le_total b.pub_date a.pub_date

theorem saveIncrement_of_not_mem (l : List Choice) (cid : Nat)
    (h : ∀ c ∈ l, c.id ≠ cid) : saveIncrement l cid = l := by
  have hmap : l.map (fun c => if c.id == cid then { c with votes := c.votes + 1 } else c)
      = l.map id := by
    apply List.map_congr_left
    intro c hc
    simp [h c hc]
  simpa [saveIncrement] using hmap

theorem saveIncrement_eq_set (l : List Choice) (cid : Nat) :
    ∀ (i : Nat) (h : i < l.length),
    (l.get ⟨i, h⟩).id = cid →
    (l.map Choice.id).Nodup →
    saveIncrement l cid =
      l.set i { l.get ⟨i, h⟩ with votes := (l.get ⟨i, h⟩).votes + 1 } := by
  induction l with
  | nil => intro i h _ _; exact absurd h (Nat.not_lt_zero i)
  | cons a t ih =>
    intro i h hid hnd
    simp only [List.map_cons, List.nodup_cons] at hnd
    obtain ⟨hna, hnd'⟩ := hnd
    cases i with
    | zero =>
      have hid0 : a.id = cid := hid
      have ht : saveIncrement t cid = t := by
        apply saveIncrement_of_not_mem
        intro c hc hcid
        exact hna (hid0 ▸ hcid ▸ List.mem_map.mpr ⟨c, hc, rfl⟩)
      have hfa : (if a.id == cid then { a with votes := a.votes + 1 } else a)
          = { a with votes := a.votes + 1 } := by simp [hid0]
      calc saveIncrement (a :: t) cid
          = (if a.id == cid then { a with votes := a.votes + 1 } else a)
            :: saveIncrement t cid := rfl
        _ = { a with votes := a.votes + 1 } :: t := by rw [hfa, ht]
    | succ j =>
      have hj : j < t.length := Nat.lt_of_succ_lt_succ h
      have hid' : (t.get ⟨j, hj⟩).id = cid := hid
      have hane : (if a.id == cid then { a with votes := a.votes + 1 } else a) = a := by
        have : ¬ a.id = cid := by
          intro hacid
          exact hna (hacid ▸ hid' ▸ List.mem_map.mpr ⟨t.get ⟨j, hj⟩, t.get_mem _ _, rfl⟩)
        simp [this]
      calc saveIncrement (a :: t) cid
          = (if a.id == cid then { a with votes := a.votes + 1 } else a)
            :: saveIncrement t cid := rfl
        _ = a :: saveIncrement t cid := by rw [hane]
        _ = a :: t.set j { t.get ⟨j, hj⟩ with votes := (t.get ⟨j, hj⟩).votes + 1 } := by
            rw [ih j hj hid' hnd']

theorem vote_success_core (db : DB) (qid cid : Nat) (q : Question) (c : Choice)
    (hq : getQuestion db qid = some q)
    (hc : getChoice db qid cid = some c)
    (hnodup : (db.choices.map Choice.id).Nodup) :
    (vote db qid (some cid)).2 = VoteOutcome.redirectResults qid ∧
    (vote db qid (some cid)).1.questions = db.questions ∧
    ∃ i, ∃ h : i < db.choices.length,
      db.choices.get ⟨i, h⟩ = c ∧
      (vote db qid (some cid)).1.choices =
        db.choices.set i { c with votes := c.votes + 1 } := by
  have hc' : db.choices.find? (fun x => x.id == cid && x.question == qid) = some c := hc
  have hcid0 := List.find?_some hc'
  have hcid : (c.id == cid && c.question == qid) = true := by simpa using hcid0
  have hcmem : c ∈ db.choices := List.mem_of_find?_eq_some hc'
  obtain ⟨n, hget⟩ := List.get_of_mem hcmem
  have hveq : vote db qid (some cid) =
      ({ db with choices := saveIncrement db.choices cid }, .redirectResults qid) := by
    simp [vote, hq, hc]
  have hcidnat : c.id = cid := by
    have := (Bool.and_eq_true _ _).mp hcid
    exact eq_of_beq this.1
  refine ⟨by rw [hveq], by rw [hveq], n.1, n.2, hget, ?_⟩
  rw [hveq]
  have hstep := saveIncrement_eq_set db.choices cid n.1 n.2
    (by rw [show db.choices.get ⟨n.1, n.2⟩ = c from hget]; exact hcidnat) hnodup
  rw [show db.choices.get ⟨n.1, n.2⟩ = c from hget] at hstep
  exact hstep

theorem vote_db_cases (db : DB) (qid : Nat) (p : Option Nat) :
    vote db qid p = (db, VoteOutcome.notFound) ∨
    vote db qid p = (db, VoteOutcome.noSelection qid) ∨
    ∃ cid, p = some cid ∧
      vote db qid p =
        ({ db with choices := saveIncrement db.choices cid },
          VoteOutcome.redirectResults qid) := by
  cases hq : getQuestion db qid with
  | none => exact Or.inl (by simp [vote, hq])
  | some q =>
    cases p with
    | none => exact Or.inr (Or.inl (by simp [vote, hq]))
    | some cid =>
      cases hc : getChoice db qid cid with
      | none => exact Or.inr (Or.inl (by simp [vote, hq, hc]))
      | some c => exact Or.inr (Or.inr ⟨cid, rfl, by simp [vote, hq, hc]⟩)

/-! ### Claim theorems -/

/-- C3: `was_published_recently` returns true iff
`now - 1 day ≤ pub_date ≤ now`, a closed interval at both ends, so a
`pub_date` exactly `now` or exactly `now - 1 day` counts as recent, while a
strictly future `pub_date` or one older than a day does not. -/
theorem was_published_recently_iff (q : Question) (now : Int) :
    was_published_recently q now = true ↔
      now - oneDay ≤ q.pub_date ∧ q.pub_date ≤ now := by
  simp [was_published_recently]

/-- C1: voting with a valid submitted choice belonging to the question
increments exactly that choice's vote count by exactly 1 (one row of the
stored choices is replaced by the same row with `votes + 1`), persists it,
leaves the questions untouched, and redirects to the results view. -/
theorem vote_valid_choice_increments (db : DB) (qid cid : Nat) (q : Question)
    (c : Choice)
    (hq : getQuestion db qid = some q)
    (hc : getChoice db qid cid = some c)
    (hnodup : (db.choices.map Choice.id).Nodup) :
    (vote db qid (some cid)).2 = VoteOutcome.redirectResults qid ∧
    (vote db qid (some cid)).1.questions = db.questions ∧
    ∃ i, ∃ h : i < db.choices.length,
      db.choices.get ⟨i, h⟩ = c ∧
      (vote db qid (some cid)).1.choices =
        db.choices.set i { c with votes := c.votes + 1 } :=
  vote_success_core db qid cid q c hq hc hnodup

/-- Witness for C1 at the concrete fixture database. -/
theorem vote_valid_choice_increments_witness :
    (vote dbW 1 (some 11)).2 = VoteOutcome.redirectResults 1 ∧
    (vote dbW 1 (some 11)).1.questions = dbW.questions ∧
    ∃ i, ∃ h : i < dbW.choices.length,
      dbW.choices.get ⟨i, h⟩ = cW ∧
      (vote dbW 1 (some 11)).1.choices =
        dbW.choices.set i { cW with votes := cW.votes + 1 } :=
  vote_valid_choice_increments dbW 1 11 qW cW rfl rfl (by decide)

/-- C2: when the question exists but no choice was submitted, or the
submitted choice identifier matches no choice belonging to that question,
`vote` yields the no-selection outcome and returns the database unchanged:
every vote count is untouched. -/
theorem vote_no_selection_unchanged (db : DB) (qid : Nat) (p : Option Nat)
    (q : Question)
    (hq : getQuestion db qid = some q)
    (hp : p = none ∨ ∃ cid, p = some cid ∧ getChoice db qid cid = none) :
    vote db qid p = (db, VoteOutcome.noSelection qid) := by
  rcases hp with rfl | ⟨cid, rfl, hc⟩
  · simp [vote, hq]
  · simp [vote, hq, hc]

/-- Witness for C2: a submitted identifier not belonging to the question. -/
theorem vote_no_selection_unchanged_witness :
    vote dbW 1 (some 99) = (dbW, VoteOutcome.noSelection 1) :=
  vote_no_selection_unchanged dbW 1 (some 99) qW rfl (Or.inr ⟨99, rfl, rfl⟩)

/-- C8: when the question identifier resolves to no stored question,
`vote` yields the not-found outcome and mutates nothing; and `vote` has
exactly three outcomes: not-found, no-selection, or redirect-to-results. -/
theorem vote_unknown_question_not_found (db : DB) (qid : Nat) (p : Option Nat)
    (hq : getQuestion db qid = none) :
    vote db qid p = (db, VoteOutcome.notFound) ∧
    ∀ (db' : DB) (qid' : Nat) (p' : Option Nat),
      (vote db' qid' p').2 = VoteOutcome.notFound ∨
      (vote db' qid' p').2 = VoteOutcome.noSelection qid' ∨
      (vote db' qid' p').2 = VoteOutcome.redirectResults qid' := by
  constructor
  · simp [vote, hq]
  · intro db' qid' p'
    rcases vote_db_cases db' qid' p' with h | h | ⟨cid, _, h⟩ <;> rw [h]
    · exact Or.inl rfl
    · exact Or.inr (Or.inl rfl)
    · exact Or.inr (Or.inr rfl)

/-- Witness for C8: voting on an absent question identifier. -/
theorem vote_unknown_question_not_found_witness :
    vote dbOrphan 5 none = (dbOrphan, VoteOutcome.notFound) ∧
    ∀ (db' : DB) (qid' : Nat) (p' : Option Nat),
      (vote db' qid' p').2 = VoteOutcome.notFound ∨
      (vote db' qid' p').2 = VoteOutcome.noSelection qid' ∨
      (vote db' qid' p').2 = VoteOutcome.redirectResults qid' :=
  vote_unknown_question_not_found dbOrphan 5 none rfl

/-- C10: the not-found check takes precedence over the no-selection check:
for an unresolved question identifier, the outcome is not-found whatever the
submitted choice field holds, the question lookup coming first. -/
theorem vote_not_found_precedence (db : DB) (qid : Nat)
    (hq : getQuestion db qid = none) :
    ∀ p : Option Nat, vote db qid p = (db, VoteOutcome.notFound) := by
  intro p
  simp [vote, hq]

/-- Witness for C10: unresolved question, with no choice submitted and with
a choice identifier that does exist as a stored row. -/
theorem vote_not_found_precedence_witness :
    vote dbOrphan 7 none = (dbOrphan, VoteOutcome.notFound) ∧
    vote dbOrphan 7 (some 31) = (dbOrphan, VoteOutcome.notFound) :=
  ⟨vote_not_found_precedence dbOrphan 7 rfl none,
   vote_not_found_precedence dbOrphan 7 rfl (some 31)⟩

/-- C9: `vote` applies no publish-time validation: a question whose
`pub_date` is strictly in the future accepts votes exactly like a past one,
incrementing the selected choice's count by 1 and redirecting. -/
theorem vote_ignores_future_pub_date (db : DB) (qid cid : Nat) (q : Question)
    (c : Choice) (now : Int)
    (hq : getQuestion db qid = some q)
    (_hfuture : now < q.pub_date)
    (hc : getChoice db qid cid = some c)
    (hnodup : (db.choices.map Choice.id).Nodup) :
    (vote db qid (some cid)).2 = VoteOutcome.redirectResults qid ∧
    ∃ i, ∃ h : i < db.choices.length,
      db.choices.get ⟨i, h⟩ = c ∧
      (vote db qid (some cid)).1.choices =
        db.choices.set i { c with votes := c.votes + 1 } := by
  have h := vote_success_core db qid cid q c hq hc hnodup
  exact ⟨h.1, h.2.2⟩

/-- Witness for C9 at the future-dated fixture, with `now = 0`. -/
theorem vote_ignores_future_pub_date_witness :
    (vote dbF 2 (some 21)).2 = VoteOutcome.redirectResults 2 ∧
    ∃ i, ∃ h : i < dbF.choices.length,
      dbF.choices.get ⟨i, h⟩ = cF ∧
      (vote dbF 2 (some 21)).1.choices =
        dbF.choices.set i { cF with votes := cF.votes + 1 } :=
  vote_ignores_future_pub_date dbF 2 21 qF cF 0 rfl (by decide) rfl (by decide)

theorem saveIncrement_length (l : List Choice) (cid : Nat) :
    (saveIncrement l cid).length = l.length := by
  simp [saveIncrement]

theorem saveIncrement_get_of_ne (l : List Choice) (cid : Nat) (i : Nat)
    (h : i < l.length) (h2 : i < (saveIncrement l cid).length)
    (hne : (l.get ⟨i, h⟩).id ≠ cid) :
    (saveIncrement l cid).get ⟨i, h2⟩ = l.get ⟨i, h⟩ := by
  simp only [saveIncrement, List.get_eq_getElem, List.getElem_map]
  simp only [List.get_eq_getElem] at hne
  simp [hne]

/-- C6: the frame of a successful vote is exactly the selected choice:
the stored questions are untouched by every `vote` call, the choice table
keeps its length, and every row whose primary key differs from the
submitted one is unchanged.  The listing (`get_queryset`), the lookups
(`detailLookup`, `getQuestion`, `getChoice`) and `was_published_recently`
are pure functions of the state and mutate nothing by construction. -/
theorem vote_frame (db : DB) (qid cid : Nat) :
    (∀ p : Option Nat, (vote db qid p).1.questions = db.questions) ∧
    (vote db qid (some cid)).1.choices.length = db.choices.length ∧
    ∀ (i : Nat) (h : i < db.choices.length)
      (h2 : i < (vote db qid (some cid)).1.choices.length),
      (db.choices.get ⟨i, h⟩).id ≠ cid →
      (vote db qid (some cid)).1.choices.get ⟨i, h2⟩ = db.choices.get ⟨i, h⟩ := by
  refine ⟨?_, ?_, ?_⟩
  · intro p
    rcases vote_db_cases db qid p with h | h | ⟨c, _, h⟩ <;> rw [h]
  · rcases vote_db_cases db qid (some cid) with h | h | ⟨c, hc, h⟩ <;> rw [h]
    obtain rfl : cid = c := Option.some_injective _ hc
    exact saveIncrement_length db.choices cid
  · intro i h h2 hne
    rcases vote_db_cases db qid (some cid) with hv | hv | ⟨c, hc, hv⟩
    · have hl : (vote db qid (some cid)).1.choices = db.choices := by rw [hv]
      exact List.get_of_eq hl ⟨i, h2⟩
    · have hl : (vote db qid (some cid)).1.choices = db.choices := by rw [hv]
      exact List.get_of_eq hl ⟨i, h2⟩
    · obtain rfl : cid = c := Option.some_injective _ hc
      have hl : (vote db qid (some cid)).1.choices = saveIncrement db.choices cid := by
        rw [hv]
      have h2' : i < (saveIncrement db.choices cid).length := hl ▸ h2
      exact (List.get_of_eq hl ⟨i, h2⟩).trans
        (saveIncrement_get_of_ne db.choices cid i h h2' hne)

/-- Witness for C6 at the fixture database: the sibling choice `cW2` (row
index 1, primary key 12) is unchanged by a vote for choice 11, and the
questions are untouched. -/
theorem vote_frame_witness :
    (vote dbW 1 (some 11)).1.questions = dbW.questions ∧
    (vote dbW 1 (some 11)).1.choices.length = dbW.choices.length ∧
    (vote dbW 1 (some 11)).1.choices.get ⟨1, by decide⟩ = dbW.choices.get ⟨1, by decide⟩ :=
  ⟨(vote_frame dbW 1 11).1 (some 11), (vote_frame dbW 1 11).2.1,
   (vote_frame dbW 1 11).2.2 1 (by decide) (by decide) (by decide)⟩

/-- C7: the invariant `0 ≤ votes` on every stored choice is preserved by
`vote` (the only in-scope mutation is an increment by 1; the listing and
lookup operations do not touch the state at all). -/
theorem vote_preserves_nonneg (db : DB) (qid : Nat) (p : Option Nat)
    (hinv : ∀ c ∈ db.choices, 0 ≤ c.votes) :
    ∀ c ∈ (vote db qid p).1.choices, 0 ≤ c.votes := by
  rcases vote_db_cases db qid p with h | h | ⟨cid, _, h⟩
  · rw [h]; exact hinv
  · rw [h]; exact hinv
  · rw [h]
    intro c hc
    simp only [saveIncrement, List.mem_map] at hc
    obtain ⟨a, ha, rfl⟩ := hc
    have hnn := hinv a ha
    by_cases hid : a.id = cid
    · simp only [hid, beq_self_eq_true, if_true]
      omega
    · simp [hid, hnn]

/-- Witness for C7: after a vote in the fixture database the incremented
row still has a non-negative count. -/
theorem vote_preserves_nonneg_witness :
    (0 : Int) ≤ (Choice.mk 11 1 "c" 1).votes :=
  vote_preserves_nonneg dbW 1 (some 11) (by decide) ⟨11, 1, "c", 1⟩ (by decide)

/-- C5: the detail (and results) lookup succeeds exactly when a stored
question carries the requested identifier, the returned record is that
stored question, and no further validation is applied — in particular a
future-dated question is still returned. -/
theorem detailLookup_spec (db : DB) (qid : Nat) :
    ((detailLookup db qid).isSome = true ↔ ∃ q ∈ db.questions, q.id = qid) ∧
    (∀ q, detailLookup db qid = some q → q ∈ db.questions ∧ q.id = qid) := by
  constructor
  · have hdef : detailLookup db qid = db.questions.find? (fun x => x.id == qid) := rfl
    rw [hdef, List.find?_isSome]
    constructor
    · rintro ⟨x, hx, hp⟩
      exact ⟨x, hx, by simpa using hp⟩
    · rintro ⟨x, hx, hp⟩
      exact ⟨x, hx, by simpa using hp⟩
  · intro q hq
    have hq' : db.questions.find? (fun x => x.id == qid) = some q := hq
    exact ⟨List.mem_of_find?_eq_some hq', by simpa using List.find?_some hq'⟩

/-- Witness for C5: looking up the future-dated question succeeds while an
unknown identifier fails. -/
theorem detailLookup_spec_witness :
    (detailLookup dbF 2).isSome = true ∧ detailLookup dbF 2 = some qF :=
  ⟨(detailLookup_spec dbF 2).1.mpr ⟨qF, by decide, rfl⟩, rfl⟩

/-- C4: the listing returns at most five questions, each of them stored and
not future-dated, in descending `pub_date` order; every future-dated stored
question is excluded unconditionally; and a stored past question is left
out only when the listing is already full of questions at least as
recent. -/
theorem get_queryset_spec (db : DB) (now : Int) :
    (get_queryset db now).length ≤ 5 ∧
    (∀ q ∈ get_queryset db now, q ∈ db.questions ∧ q.pub_date ≤ now) ∧
    (get_queryset db now).Pairwise (fun a b => b.pub_date ≤ a.pub_date) ∧
    (∀ q ∈ db.questions, now < q.pub_date → q ∉ get_queryset db now) ∧
    (∀ q ∈ db.questions, q.pub_date ≤ now → q ∉ get_queryset db now →
      (get_queryset db now).length = 5 ∧
      ∀ r ∈ get_queryset db now, q.pub_date ≤ r.pub_date) := by
  have hdef : get_queryset db now =
      ((db.questions.filter (fun q => decide (q.pub_date ≤ now))).mergeSort
        byRecency).take 5 := rfl
  have hsorted := List.sorted_mergeSort byRecency_trans byRecency_total
    (db.questions.filter (fun q => decide (q.pub_date ≤ now)))
  refine ⟨?_, ?_, ?_, ?_, ?_⟩
  · rw [hdef]; exact List.length_take_le 5 _
  · intro q hq
    rw [hdef] at hq
    have hq' := List.mem_mergeSort.mp ((List.take_sublist 5 _).subset hq)
    have := List.mem_filter.mp hq'
    exact ⟨this.1, of_decide_eq_true this.2⟩
  · rw [hdef]
    exact ((List.Pairwise.sublist (List.take_sublist 5 _) hsorted).imp
      (fun h => of_decide_eq_true h))
  · intro q _ hfut hq
    rw [hdef] at hq
    have hq' := List.mem_mergeSort.mp ((List.take_sublist 5 _).subset hq)
    have := of_decide_eq_true (List.mem_filter.mp hq').2
    exact absurd this (not_le.mpr hfut)
  · intro q hmem hle hnot
    rw [hdef] at hnot ⊢
    have hqf : q ∈ db.questions.filter (fun x => decide (x.pub_date ≤ now)) :=
      List.mem_filter.mpr ⟨hmem, decide_eq_true hle⟩
    have hqs : q ∈ (db.questions.filter
        (fun x => decide (x.pub_date ≤ now))).mergeSort byRecency :=
      List.mem_mergeSort.mpr hqf
    have hsplit := List.take_append_drop 5 ((db.questions.filter
        (fun x => decide (x.pub_date ≤ now))).mergeSort byRecency)
    have hqd : q ∈ ((db.questions.filter
        (fun x => decide (x.pub_date ≤ now))).mergeSort byRecency).drop 5 := by
      rcases List.mem_append.mp (hsplit ▸ hqs) with h | h
      · exact absurd h hnot
      · exact h
    have hlen : 5 < ((db.questions.filter
        (fun x => decide (x.pub_date ≤ now))).mergeSort byRecency).length := by
      by_contra hcon
      rw [List.drop_eq_nil_of_le (Nat.le_of_not_lt hcon)] at hqd
      exact absurd hqd (List.not_mem_nil q)
    constructor
    · rw [List.length_take]
      exact Nat.min_eq_left (Nat.le_of_lt hlen)
    · intro r hr
      have hpair := (List.pairwise_append.mp (hsplit ▸ hsorted)).2.2 r hr q hqd
      exact of_decide_eq_true hpair

/-- Witness for C4: the listing over the fixture database at time 0 is
short and excludes the future-dated question. -/
theorem get_queryset_spec_witness :
    (get_queryset dbL 0).length ≤ 5 ∧ qF ∉ get_queryset dbL 0 :=
  ⟨(get_queryset_spec dbL 0).1,
   (get_queryset_spec dbL 0).2.2.2.1 qF (by decide) (by decide)⟩

end Polls
